import Mathlib

/-!
Verification of the cyberdriver desktop agent (Rust sources under
`src/src-tauri/src/`) against its natural-language specification.

Each section embeds one part of the program as executable Lean definitions
translated from the Rust source, and proves (or refutes) the corresponding
claims. Strings are handled as their underlying character lists so that all
definitions evaluate inside the kernel.
-/

namespace Cyberdriver

/-! ## String primitives

Structural models of the Rust `str` operations used by the sources.
-/

/-- Split a character list at every character satisfying `p`, keeping empty
pieces — the behaviour of Rust `str::split` with a `char` pattern. -/
def splitOnP (p : Char → Bool) : List Char → List (List Char)
  | [] => [[]]
  | c :: rest =>
    match splitOnP p rest with
    | [] => [[]]
    | piece :: pieces =>
      if p c then [] :: piece :: pieces
      else (c :: piece) :: pieces

/-- Rust `str::split_whitespace`: pieces between whitespace runs, no empties. -/
def splitWs (l : List Char) : List (List Char) :=
  (splitOnP Char.isWhitespace l).filter (fun piece => piece ≠ [])

/-- Rust `str::trim`. -/
def trimChars (l : List Char) : List Char :=
  (l.dropWhile Char.isWhitespace).reverse.dropWhile Char.isWhitespace |>.reverse

/-- Rust `str::to_lowercase`, restricted to the one-to-one character case
mapping (the inputs relevant here are ASCII). -/
def lowerChars (l : List Char) : List Char := l.map Char.toLower

/-! ## Key-sequence parser (`cyberdriver/input.rs`, `parse_xdo_sequence`) -/

/-- A single synthetic key event, as in `input.rs` `struct KeyEvent`:
`key` is the token, `down = true` for press, `false` for release. -/
structure KeyEvent where
  key : List Char
  down : Bool
deriving DecidableEq, Repr

/-- The modifier-token test used by `parse_xdo_sequence` (input.rs lines 32, 37):
`matches!(p.as_str(), "ctrl" | "alt" | "shift" | "win" | "cmd" | "super" | "meta")`. -/
def isModifierToken (p : List Char) : Bool :=
  p = "ctrl".data || p = "alt".data || p = "shift".data || p = "win".data
    || p = "cmd".data || p = "super".data || p = "meta".data

/-- `parse_xdo_sequence` from `input.rs` lines 24-53, translated loop by loop:
for each whitespace-separated command of the trimmed input, split on `+`,
lowercase, filter into modifiers and keys by `isModifierToken`, then push
press events for the modifiers, press+release for each key, and release
events for the modifiers in reverse order. -/
def parse_xdo_sequence (sequence : List Char) : List (List KeyEvent) :=
  let commands := splitWs (trimChars sequence)
  commands.foldl
    (fun result command =>
      let parts := (splitOnP (· = '+') command).map lowerChars
      let modifiers := parts.filter (fun p => isModifierToken p)
      let keys := parts.filter (fun p => !(isModifierToken p))
      let events := modifiers.foldl (fun evs m => evs ++ [⟨m, true⟩]) ([] : List KeyEvent)
      let events := keys.foldl (fun evs k => evs ++ [⟨k, true⟩, ⟨k, false⟩]) events
      let events := modifiers.reverse.foldl (fun evs m => evs ++ [⟨m, false⟩]) events
      result ++ [events])
    []

/-- Specification-side description of the event list of one chord: presses of
the modifiers in listed order, then press+release per key, then releases of
the modifiers in reverse order, where modifiers are exactly the tokens
accepted by `isModifierToken`. -/
def chordSpec (command : List Char) : List KeyEvent :=
  let parts := (splitOnP (· = '+') command).map lowerChars
  let modifiers := parts.filter (fun p => isModifierToken p)
  let keys := parts.filter (fun p => !(isModifierToken p))
  modifiers.map (fun m => ⟨m, true⟩)
    ++ keys.flatMap (fun k => [⟨k, true⟩, ⟨k, false⟩])
    ++ modifiers.reverse.map (fun m => ⟨m, false⟩)

theorem foldl_push_eq_append_map {α : Type} (l : List α) (init : List KeyEvent)
    (f : α → KeyEvent) :
    l.foldl (fun evs m => evs ++ [f m]) init = init ++ l.map f := by
  induction l generalizing init with
  | nil => simp
  | cons x xs ih => simp [ih]

theorem foldl_push2_eq_append_flatMap {α : Type} (l : List α) (init : List KeyEvent)
    (f g : α → KeyEvent) :
    l.foldl (fun evs k => evs ++ [f k, g k]) init
      = init ++ l.flatMap (fun k => [f k, g k]) := by
  induction l generalizing init with
  | nil => simp
  | cons x xs ih => simp [ih]

theorem foldl_snoc_eq_map {α : Type} (l : List α) (f : α → List KeyEvent) :
    l.foldl (fun result command => result ++ [f command]) ([] : List (List KeyEvent))
      = l.map f := by
  have h : ∀ init, l.foldl (fun result command => result ++ [f command]) init
      = init ++ l.map f := by
    induction l with
    | nil => simp
    | cons x xs ih => intro init; simp [ih]
  simpa using h []

/-- The parser maps `chordSpec` over the whitespace-separated commands. -/
theorem parse_xdo_sequence_eq_map_chordSpec (s : List Char) :
    parse_xdo_sequence s = (splitWs (trimChars s)).map chordSpec := by
  unfold parse_xdo_sequence
  rw [foldl_snoc_eq_map]
  apply List.map_congr_left
  intro command _
  simp only [chordSpec]
  rw [foldl_push_eq_append_map, foldl_push2_eq_append_flatMap, foldl_push_eq_append_map]
  simp

/-- C4: `parse_xdo_sequence` applied to `"ctrl+a ctrl+c"` yields exactly two
chords whose concatenated key events are, in order: press ctrl, press a,
release a, release ctrl, press ctrl, press c, release c, release ctrl. -/
theorem c4_parse_ctrl_a_ctrl_c :
    (parse_xdo_sequence "ctrl+a ctrl+c".data).length = 2
      ∧ (parse_xdo_sequence "ctrl+a ctrl+c".data).flatten =
        [⟨"ctrl".data, true⟩, ⟨"a".data, true⟩, ⟨"a".data, false⟩, ⟨"ctrl".data, false⟩,
         ⟨"ctrl".data, true⟩, ⟨"c".data, true⟩, ⟨"c".data, false⟩, ⟨"ctrl".data, false⟩] := by
  constructor
  · decide
  · decide

/-- C5 counterexample: the claim lists `control` and `option` among the
tokens classified as modifiers by the parser, but `parse_xdo_sequence`
treats both as plain key names: the chord `"control+a"` yields
press/release of `control` as a click before `a`, not a modifier
bracketing the chord. -/
theorem c5_counterexample :
    isModifierToken "control".data = false
      ∧ isModifierToken "option".data = false
      ∧ parse_xdo_sequence "control+a".data =
        [[⟨"control".data, true⟩, ⟨"control".data, false⟩,
          ⟨"a".data, true⟩, ⟨"a".data, false⟩]]
      ∧ parse_xdo_sequence "control+a".data ≠
        [[⟨"control".data, true⟩, ⟨"a".data, true⟩,
          ⟨"a".data, false⟩, ⟨"control".data, false⟩]] := by
  refine ⟨by decide, by decide, by decide, by decide⟩

/-- C5 (amended): exactly the tokens in the set
{ctrl, alt, shift, win, cmd, super, meta} are classified as modifiers, and
every chord of a key sequence parses to presses of its modifiers in listed
order, then a press+release for each non-modifier token (treated as a key
name), then releases of the modifiers in reverse order. -/
theorem c5_modifier_classification (s : List Char) :
    (∀ p : List Char,
        isModifierToken p = true ↔
          p ∈ ["ctrl".data, "alt".data, "shift".data, "win".data,
               "cmd".data, "super".data, "meta".data])
      ∧ parse_xdo_sequence s = (splitWs (trimChars s)).map chordSpec := by
  constructor
  · intro p
    simp [isModifierToken, or_assoc]
  · exact parse_xdo_sequence_eq_map_chordSpec s

/-! ## Tunnel reconnection loop (`cyberdriver/tunnel.rs`, `TunnelClient::run`)

`run` (tunnel.rs lines 87-129) repeatedly calls `connect_and_run` and sleeps
between failed attempts. `connect_and_run` returns `Ok` only after the stop
token fired (the loop then breaks on the cancellation check), so every
iteration that reaches the backoff code observed an `Err`. The model below
covers the non-cancelled executions: a run is driven by the finite list of
error outcomes of the successive `connect_and_run` calls, paired with the
`random::<u64>()` draw used for jitter in that iteration.
-/

/-- `ConnectionInfo` fields written by the run loop (`config.rs` lines 32-38;
`host`/`port` are written inside `connect_and_run`, outside this model). -/
structure ConnInfo where
  connected : Bool
  lastError : Option (List Char)
deriving DecidableEq, Repr

/-- `CyberdriverError::RuntimeError(msg).to_string()`: `Display` writes the
`Debug` form (`error.rs` lines 20-24), i.e. `RuntimeError("msg")`. -/
def runtimeErrorString (msg : List Char) : List Char :=
  "RuntimeError(\"".data ++ msg ++ "\")".data

def authFailureMsg : List Char := "AUTH_FAILURE".data

/-- Rust `str::contains` with a string pattern: substring occurrence. -/
def containsSub (needle hay : List Char) : Bool := decide (needle <:+: hay)

/-- The ways `connect_and_run` (tunnel.rs lines 131-242) exits with an error:
websocket upgrade rejected with an HTTP status (the `WsError::Http` arm),
any other upgrade error, a peer Close frame (with optional close code — the
`CloseCode::Policy` wire value is 1008), a read-stream error, the stream
ending, or a ping send failure. -/
inductive ConnectExit where
  | upgradeHttp (status : Nat) (detail : List Char)
  | upgradeOther (detail : List Char)
  | closeFrame (code : Option Nat)
  | streamError (detail : List Char)
  | streamEnd
  | pingFail (detail : List Char)
deriving DecidableEq, Repr

/-- The error string `connect_and_run` produces for each exit, following
tunnel.rs lines 169-179 (upgrade), 196-198 (ping), 200-205 (stream) and
228-235 (close frame). -/
def connectExitError : ConnectExit → List Char
  | .upgradeHttp status detail =>
      if status = 403 then runtimeErrorString authFailureMsg
      else runtimeErrorString ("Connection failed: ".data ++ detail)
  | .upgradeOther detail => runtimeErrorString ("Connection failed: ".data ++ detail)
  | .closeFrame (some code) =>
      if code = 1008 then runtimeErrorString authFailureMsg
      else runtimeErrorString "Connection closed".data
  | .closeFrame none => runtimeErrorString "Connection closed".data
  | .streamError detail => runtimeErrorString detail
  | .streamEnd => runtimeErrorString "Connection closed".data
  | .pingFail detail => runtimeErrorString ("Ping failed: ".data ++ detail)

/-- The loop-local state of `TunnelClient::run`, plus the observables the
claims are about: how many times `connect_and_run` was invoked and the
backoff sleeps performed (in milliseconds). -/
structure RunState where
  sleepTime : Nat
  failuresAtMax : Nat
  info : ConnInfo
  attempts : Nat
  delays : List Nat
deriving DecidableEq, Repr

def initialRunState : RunState :=
  { sleepTime := 1, failuresAtMax := 0,
    info := { connected := false, lastError := none }, attempts := 0, delays := [] }

/-- One iteration of the `run` loop given the error string of the
`connect_and_run` call it made and the `random::<u64>()` draw: record the
attempt, clear `connected`, store the error (tunnel.rs 103-107), break on an
`AUTH_FAILURE` substring (111-113), otherwise do the `failures_at_max`
bookkeeping (115-120), sleep `sleep_time*1000 + jitter%1000` ms (121-126)
and double `sleep_time` capped at 16 (127). Returns the new state and
whether the loop continues. -/
def runStep (st : RunState) (err : List Char) (rand : Nat) : RunState × Bool :=
  let st := { st with attempts := st.attempts + 1,
                      info := { connected := false, lastError := some err } }
  if containsSub authFailureMsg err then (st, false)
  else
    let f := if st.sleepTime ≥ 16 then
               (if st.failuresAtMax + 1 ≥ 3 then 0 else st.failuresAtMax + 1)
             else st.failuresAtMax
    ({ st with failuresAtMax := f,
               delays := st.delays ++ [st.sleepTime * 1000 + rand % 1000],
               sleepTime := min (st.sleepTime * 2) 16 }, true)

/-- The `run` loop over the outcomes of the successive connection attempts. -/
def runLoop : RunState → List (List Char × Nat) → RunState
  | st, [] => st
  | st, (err, r) :: rest =>
    match runStep st err r with
    | (st', true) => runLoop st' rest
    | (st', false) => st'

def tunnelRun (outcomes : List (List Char × Nat)) : RunState :=
  runLoop initialRunState outcomes

/-- The base backoff before the `i`-th retry (0-indexed), in milliseconds. -/
def baseDelay (i : Nat) : Nat := min (2 ^ i) 16 * 1000

/-- The loop state after one non-auth failure. -/
def stepState (st : RunState) (err : List Char) (rand : Nat) : RunState :=
  { sleepTime := min (st.sleepTime * 2) 16,
    failuresAtMax := if st.sleepTime ≥ 16 then
                       (if st.failuresAtMax + 1 ≥ 3 then 0 else st.failuresAtMax + 1)
                     else st.failuresAtMax,
    info := { connected := false, lastError := some err },
    attempts := st.attempts + 1,
    delays := st.delays ++ [st.sleepTime * 1000 + rand % 1000] }

theorem runLoop_cons_noAuth (st : RunState) (e : List Char) (r : Nat)
    (rest : List (List Char × Nat)) (he : containsSub authFailureMsg e = false) :
    runLoop st ((e, r) :: rest) = runLoop (stepState st e r) rest := by
  simp [runLoop, runStep, stepState, he]

theorem runLoop_cons_auth (st : RunState) (e : List Char) (r : Nat)
    (rest : List (List Char × Nat)) (he : containsSub authFailureMsg e = true) :
    runLoop st ((e, r) :: rest)
      = { st with attempts := st.attempts + 1,
                  info := { connected := false, lastError := some e } } := by
  simp [runLoop, runStep, he]

theorem min_double_cap (k : Nat) :
    min (min (2 ^ k) 16 * 2) 16 = min (2 ^ (k + 1)) 16 := by
  rcases Nat.le_total (2 ^ k) 16 with h | h
  · rw [Nat.min_eq_left h, Nat.pow_succ]
  · have h2 : (16 : Nat) ≤ 2 ^ (k + 1) :=
      le_trans h (Nat.pow_le_pow_right (by norm_num) (Nat.le_succ k))
    rw [Nat.min_eq_right h, Nat.min_eq_right h2, Nat.min_eq_right (by omega)]

/-- Processing a list of non-auth failures from a state whose `sleepTime`
is `min (2^k) 16`: every outcome leads to one more attempt, the recorded
delays follow the doubling-capped formula, and the loop state afterwards
continues the same schedule. -/
theorem runLoop_noAuth (outcomes : List (List Char × Nat))
    (h : ∀ p ∈ outcomes, containsSub authFailureMsg p.1 = false) :
    ∀ (k : Nat) (st : RunState), st.sleepTime = min (2 ^ k) 16 →
      (runLoop st outcomes).attempts = st.attempts + outcomes.length
        ∧ (runLoop st outcomes).delays
            = st.delays
              ++ List.zipWith (fun i p => baseDelay i + p.2 % 1000)
                  (List.range' k outcomes.length) outcomes
        ∧ (runLoop st outcomes).sleepTime = min (2 ^ (k + outcomes.length)) 16 := by
  induction outcomes with
  | nil => intro k st hs; simp [runLoop, hs]
  | cons p rest ih =>
    intro k st hs
    obtain ⟨e, r⟩ := p
    have he : containsSub authFailureMsg e = false := h (e, r) (List.mem_cons_self _ _)
    have hrest : ∀ q ∈ rest, containsSub authFailureMsg q.1 = false :=
      fun q hq => h q (List.mem_cons_of_mem _ hq)
    rw [runLoop_cons_noAuth st e r rest he]
    have hnext : (stepState st e r).sleepTime = min (2 ^ (k + 1)) 16 := by
      show min (st.sleepTime * 2) 16 = _
      rw [hs]; exact min_double_cap k
    obtain ⟨ha, hd, hsf⟩ := ih hrest (k + 1) (stepState st e r) hnext
    refine ⟨?_, ?_, ?_⟩
    · rw [ha]; show st.attempts + 1 + rest.length = _; simp [List.length_cons]; omega
    · rw [hd]
      show st.delays ++ [st.sleepTime * 1000 + r % 1000] ++ _ = _
      rw [hs]
      simp [List.range', baseDelay]
    · rw [hsf, List.length_cons]
      have harith : k + 1 + rest.length = k + (rest.length + 1) := by omega
      rw [harith]

/-- After any number of non-auth failures, an outcome whose error string
contains `AUTH_FAILURE` ends the loop at that attempt: nothing after it is
processed, and the final `ConnectionInfo` holds that error. -/
theorem runLoop_auth_stop (pre : List (List Char × Nat))
    (hpre : ∀ p ∈ pre, containsSub authFailureMsg p.1 = false)
    (rest : List (List Char × Nat)) (e : List Char) (r : Nat)
    (he : containsSub authFailureMsg e = true) :
    ∀ st : RunState,
      (runLoop st (pre ++ (e, r) :: rest)).attempts = st.attempts + pre.length + 1
        ∧ (runLoop st (pre ++ (e, r) :: rest)).info
            = { connected := false, lastError := some e } := by
  induction pre with
  | nil =>
    intro st
    rw [List.nil_append, runLoop_cons_auth st e r rest he]
    exact ⟨rfl, rfl⟩
  | cons p pre' ih =>
    intro st
    obtain ⟨e', r'⟩ := p
    have he' : containsSub authFailureMsg e' = false := hpre (e', r') (List.mem_cons_self _ _)
    have hrest : ∀ q ∈ pre', containsSub authFailureMsg q.1 = false :=
      fun q hq => hpre q (List.mem_cons_of_mem _ hq)
    rw [List.cons_append, runLoop_cons_noAuth st e' r' _ he']
    obtain ⟨ha, hi⟩ := ih hrest (stepState st e' r')
    refine ⟨?_, hi⟩
    rw [ha]
    show st.attempts + 1 + pre'.length + 1 = _
    simp [List.length_cons]
    omega

/-- C2: if the websocket upgrade is rejected with HTTP 403, or the peer
sends a Close frame with close code 1008, after any number of earlier
non-auth failures, then the run loop stops at that attempt — no further
connection attempt is made whatever would come after — and afterwards
`ConnectionInfo.last_error` contains the string `AUTH_FAILURE` and
`connected` is false. -/
theorem c2_auth_failure_terminates
    (pre rest : List (List Char × Nat)) (exit : ConnectExit) (r : Nat)
    (hpre : ∀ p ∈ pre, containsSub authFailureMsg p.1 = false)
    (hexit : (∃ d, exit = .upgradeHttp 403 d) ∨ exit = .closeFrame (some 1008)) :
    (tunnelRun (pre ++ (connectExitError exit, r) :: rest)).attempts = pre.length + 1
      ∧ (tunnelRun (pre ++ (connectExitError exit, r) :: rest)).info.connected = false
      ∧ ∃ e, (tunnelRun (pre ++ (connectExitError exit, r) :: rest)).info.lastError = some e
          ∧ containsSub authFailureMsg e = true := by
  have herr : connectExitError exit = runtimeErrorString authFailureMsg := by
    rcases hexit with ⟨d, rfl⟩ | rfl <;> simp [connectExitError]
  have hauth : containsSub authFailureMsg (runtimeErrorString authFailureMsg) = true := by
    decide
  obtain ⟨ha, hi⟩ :=
    runLoop_auth_stop pre hpre rest (runtimeErrorString authFailureMsg) r hauth
      initialRunState
  rw [herr]
  refine ⟨?_, ?_, runtimeErrorString authFailureMsg, ?_, hauth⟩
  · rw [tunnelRun, ha]; simp [initialRunState]
  · rw [tunnelRun, hi]
  · rw [tunnelRun, hi]

/-- Two non-auth failures followed by an HTTP 403 upgrade rejection: the
loop makes exactly three attempts, ignores what would follow, and leaves
`AUTH_FAILURE` in `last_error` with `connected = false`. -/
theorem c2_auth_failure_terminates_witness :
    (∀ p ∈ [(connectExitError (.upgradeOther "refused".data), 5),
            (connectExitError .streamEnd, 6)],
        containsSub authFailureMsg p.1 = false)
      ∧ ((tunnelRun ([(connectExitError (.upgradeOther "refused".data), 5),
                      (connectExitError .streamEnd, 6)]
            ++ (connectExitError (.upgradeHttp 403 "forbidden".data), 7)
              :: [(connectExitError .streamEnd, 8)])).attempts
          = 2 + 1
        ∧ (tunnelRun ([(connectExitError (.upgradeOther "refused".data), 5),
                       (connectExitError .streamEnd, 6)]
            ++ (connectExitError (.upgradeHttp 403 "forbidden".data), 7)
              :: [(connectExitError .streamEnd, 8)])).info.connected = false
        ∧ ∃ e, (tunnelRun ([(connectExitError (.upgradeOther "refused".data), 5),
                            (connectExitError .streamEnd, 6)]
            ++ (connectExitError (.upgradeHttp 403 "forbidden".data), 7)
              :: [(connectExitError .streamEnd, 8)])).info.lastError = some e
            ∧ containsSub authFailureMsg e = true) :=
  ⟨by decide,
   c2_auth_failure_terminates
     [(connectExitError (.upgradeOther "refused".data), 5),
      (connectExitError .streamEnd, 6)]
     [(connectExitError .streamEnd, 8)]
     (.upgradeHttp 403 "forbidden".data) 7 (by decide)
     (Or.inl ⟨"forbidden".data, rfl⟩)⟩

/-- C3: for every sequence of consecutive failed connection attempts that
are not AUTH_FAILURE, the delay slept after the i-th failure (before the
i+1-st attempt, 0-indexed) is `min (2^i) 16` seconds plus the jitter
`rand % 1000` milliseconds, the jitter lies in [0, 1000) ms, and a retry is
attempted after every such failure — whatever outcome comes next, another
`connect_and_run` call happens, including after three or more delays at the
16 s cap. -/
theorem c3_backoff_schedule (outcomes : List (List Char × Nat))
    (h : ∀ p ∈ outcomes, containsSub authFailureMsg p.1 = false) :
    (tunnelRun outcomes).attempts = outcomes.length
      ∧ (tunnelRun outcomes).delays
          = List.zipWith (fun i p => baseDelay i + p.2 % 1000)
              (List.range outcomes.length) outcomes
      ∧ (∀ p ∈ outcomes, p.2 % 1000 < 1000)
      ∧ (∀ e r, (tunnelRun (outcomes ++ [(e, r)])).attempts = outcomes.length + 1) := by
  have hinit : initialRunState.sleepTime = min (2 ^ 0) 16 := by decide
  obtain ⟨ha, hd, _⟩ := runLoop_noAuth outcomes h 0 initialRunState hinit
  refine ⟨by rw [tunnelRun, ha]; simp [initialRunState], ?_, ?_, ?_⟩
  · rw [tunnelRun, hd, List.range_eq_range']
    simp [initialRunState]
  · intro p _
    exact Nat.mod_lt _ (by norm_num)
  · intro e r
    by_cases hauth : containsSub authFailureMsg e = true
    · obtain ⟨ha2, _⟩ := runLoop_auth_stop outcomes h [] e r hauth initialRunState
      rw [tunnelRun, ha2]
      simp [initialRunState]
    · have hall : ∀ p ∈ outcomes ++ [(e, r)], containsSub authFailureMsg p.1 = false := by
        intro p hp
        rcases List.mem_append.mp hp with hp | hp
        · exact h p hp
        · rcases List.mem_singleton.mp hp with rfl
          exact Bool.not_eq_true _ ▸ (by simpa using hauth)
      obtain ⟨ha2, _, _⟩ := runLoop_noAuth (outcomes ++ [(e, r)]) hall 0 initialRunState hinit
      rw [tunnelRun, ha2]
      simp [initialRunState]

/-- C10: within a single invocation of the run loop the base reconnect
delay is a fixed monotone function of the attempt index — it is never reset
after any outcome, long-lived successful connections included (such a
connection ends in a non-auth `Connection closed` error like any other
outcome and the schedule continues) — and once it reaches the 16 s cap
(index ≥ 4) every later reconnection waits the 16 s base plus jitter. -/
theorem c10_base_delay_never_resets (outcomes : List (List Char × Nat))
    (h : ∀ p ∈ outcomes, containsSub authFailureMsg p.1 = false) :
    (tunnelRun outcomes).delays
        = List.zipWith (fun i p => baseDelay i + p.2 % 1000)
            (List.range outcomes.length) outcomes
      ∧ (∀ i j, i ≤ j → baseDelay i ≤ baseDelay j)
      ∧ (∀ i, 4 ≤ i → baseDelay i = 16 * 1000) := by
  have hinit : initialRunState.sleepTime = min (2 ^ 0) 16 := by decide
  obtain ⟨_, hd, _⟩ := runLoop_noAuth outcomes h 0 initialRunState hinit
  refine ⟨?_, ?_, ?_⟩
  · rw [tunnelRun, hd, List.range_eq_range']
    simp [initialRunState]
  · intro i j hij
    exact Nat.mul_le_mul_right _
      (min_le_min (Nat.pow_le_pow_right (by norm_num) hij) le_rfl)
  · intro i hi
    have h16 : (16 : Nat) ≤ 2 ^ i := by
      calc (16 : Nat) = 2 ^ 4 := by norm_num
        _ ≤ 2 ^ i := Nat.pow_le_pow_right (by norm_num) hi
    rw [baseDelay, Nat.min_eq_right h16]

/-- Eight consecutive non-auth connection failures with explicit jitter
draws; the base delay reaches the 16 s cap at index 4, so indices 4-7 are
four consecutive delays at the cap. -/
def witnessOutcomes8 : List (List Char × Nat) :=
  [(connectExitError (.upgradeOther "refused".data), 0),
   (connectExitError .streamEnd, 999),
   (connectExitError (.closeFrame (some 1000)), 500),
   (connectExitError (.pingFail "broken pipe".data), 1),
   (connectExitError (.streamError "reset".data), 2),
   (connectExitError .streamEnd, 1003),
   (connectExitError .streamEnd, 4),
   (connectExitError (.upgradeOther "timed out".data), 5)]

/-- The backoff schedule on eight concrete non-auth failures, with a ninth
attempt still made after the fourth consecutive delay at the 16 s cap. -/
theorem c3_backoff_schedule_witness :
    (∀ p ∈ witnessOutcomes8, containsSub authFailureMsg p.1 = false)
      ∧ (tunnelRun witnessOutcomes8).attempts = witnessOutcomes8.length
      ∧ (tunnelRun witnessOutcomes8).delays
          = List.zipWith (fun i p => baseDelay i + p.2 % 1000)
              (List.range witnessOutcomes8.length) witnessOutcomes8
      ∧ (tunnelRun (witnessOutcomes8 ++ [(connectExitError .streamEnd, 3)])).attempts
          = witnessOutcomes8.length + 1 :=
  ⟨by decide,
   (c3_backoff_schedule witnessOutcomes8 (by decide)).1,
   (c3_backoff_schedule witnessOutcomes8 (by decide)).2.1,
   (c3_backoff_schedule witnessOutcomes8 (by decide)).2.2.2 (connectExitError .streamEnd) 3⟩

/-- The base-delay schedule on the same eight concrete failures: monotone,
with the cap reached and held from index 4 on. -/
theorem c10_base_delay_never_resets_witness :
    (∀ p ∈ witnessOutcomes8, containsSub authFailureMsg p.1 = false)
      ∧ (tunnelRun witnessOutcomes8).delays
          = List.zipWith (fun i p => baseDelay i + p.2 % 1000)
              (List.range witnessOutcomes8.length) witnessOutcomes8
      ∧ baseDelay 3 ≤ baseDelay 4
      ∧ baseDelay 5 = 16 * 1000 :=
  ⟨by decide,
   (c10_base_delay_never_resets witnessOutcomes8 (by decide)).1,
   (c10_base_delay_never_resets witnessOutcomes8 (by decide)).2.1 3 4 (by norm_num),
   (c10_base_delay_never_resets witnessOutcomes8 (by decide)).2.2 5 (by norm_num)⟩

/-! ## Idempotency cache (`cyberdriver/tunnel.rs`, `forward_request`)

`forward_request` (tunnel.rs lines 244-336) consults a key → (timestamp,
response) map before forwarding over loopback HTTP, and stores the response
it produced under the request's idempotency key. The `HashMap` is modelled
as an association list whose order stands for the map's iteration order;
timestamps are seconds. The local API call is an oracle argument:
`Except.ok` is a received HTTP response, `Except.error` a transport error
(whose string becomes the synthesized 500 body, tunnel.rs 328-334). -/

/-- Decimal digits of a number, as characters. -/
def natToChars (n : Nat) : List Char := Nat.toDigits 10 n

/-- `TunnelResponse` (tunnel.rs lines 38-43). Body bytes are modelled as the
code points of their (ASCII) characters. -/
structure TunnelResponse where
  status : Nat
  headers : List (List Char × List Char)
  body : List Nat
deriving DecidableEq, Repr

/-- The fields of `RequestMeta` (tunnel.rs lines 20-28) that
`forward_request` reads. -/
structure RequestMeta where
  method : List Char
  path : List Char
  headers : Option (List (List Char × List Char))
deriving DecidableEq, Repr

/-- `get_idempotency_key` (tunnel.rs lines 384-391): the value of the first
header whose lowercased name is `x-idempotency-key`. -/
def get_idempotency_key (headers : Option (List (List Char × List Char))) :
    Option (List Char) :=
  headers.bind fun hs =>
    (hs.find? (fun kv => lowerChars kv.1 = "x-idempotency-key".data)).map (fun kv => kv.2)

/-- One idempotency-cache entry: key, store timestamp, stored response. -/
abbrev CacheEntry := List Char × Nat × TunnelResponse

/-- Stable insertion of an entry into a timestamp-sorted entry list. -/
def insertEntryByTs (e : CacheEntry) : List CacheEntry → List CacheEntry
  | [] => [e]
  | e' :: rest =>
    if e.2.1 ≤ e'.2.1 then e :: e' :: rest
    else e' :: insertEntryByTs e rest

/-- The cache entries sorted stably by stored timestamp. The source sorts
the key list by each key's looked-up timestamp
(`keys.sort_by_key(|k| cache.get(k).map(|(ts, _)| *ts))`, always `Some`
since every key is in the map); on a unique-key map that stable sort of the
keys coincides with stably sorting the (key, timestamp, response) entries
and projecting the keys, and a stable sort's output is unique, so any
stable sort models Rust's stable `sort_by_key`. -/
def sortEntriesByTs (l : List CacheEntry) : List CacheEntry :=
  l.foldr insertEntryByTs []

/-- `cleanup_idempotency_cache` (tunnel.rs lines 370-381): retain entries at
most 60 s old; if more than 1000 remain, remove the keys of the oldest
fifth (keys sorted stably by timestamp, first `len/5` removed). -/
def cleanupCache (now : Nat) (cache : List CacheEntry) : List CacheEntry :=
  let retained := cache.filter (fun e => now - e.2.1 ≤ 60)
  if retained.length > 1000 then
    let toRemove := ((sortEntriesByTs retained).take (retained.length / 5)).map
      (fun e => e.1)
    retained.filter (fun e => !(toRemove.contains e.1))
  else retained

/-- `HashMap::insert`: replace the value stored under `k`, or add it. -/
def cacheInsert (cache : List CacheEntry) (k : List Char) (ts : Nat)
    (r : TunnelResponse) : List CacheEntry :=
  if cache.any (fun e => e.1 = k) then
    cache.map (fun e => if e.1 = k then (k, ts, r) else e)
  else cache ++ [(k, ts, r)]

/-- `HashMap::insert` on a header map. -/
def headersInsert (hs : List (List Char × List Char)) (k v : List Char) :
    List (List Char × List Char) :=
  if hs.any (fun e => e.1 = k) then
    hs.map (fun e => if e.1 = k then (k, v) else e)
  else hs ++ [(k, v)]

/-- The body `forward_request` synthesizes for an error status with an empty
body (tunnel.rs lines 313-320): the `serde_json` rendering of the detail
object, braces written as their code points. -/
def errorEmptyBodyJson (status : Nat) (method path : List Char) : List Nat :=
  (("\x7b\"detail\":\"Cyberdriver local API returned an error with an empty body\",\"status\":".data)
    ++ natToChars status
    ++ ",\"method\":\"".data ++ method
    ++ "\",\"path\":\"".data ++ path
    ++ "\"\x7d".data).map Char.toNat

/-- The ≥400-with-empty-body patch (tunnel.rs lines 311-321). -/
def errorBodyPatch (meta : RequestMeta) (resp : TunnelResponse) : TunnelResponse :=
  if resp.status ≥ 400 && resp.body.isEmpty then
    { resp with
      headers := headersInsert resp.headers "content-type".data "application/json".data,
      body := errorEmptyBodyJson resp.status meta.method meta.path }
  else resp

/-- What `forward_request` produced: the response sent back over the tunnel,
the cache afterwards, and whether a loopback HTTP request was issued. -/
structure ForwardResult where
  response : TunnelResponse
  cache : List CacheEntry
  forwarded : Bool
deriving DecidableEq, Repr

/-- `forward_request` (tunnel.rs lines 244-336), cache and response logic:
on a request carrying an idempotency key, clean the cache, and return a
cached entry younger than 60 s without forwarding; otherwise forward to the
local API (the `api` oracle), patch empty error bodies, store the response
under the key (at the same clock reading `now`), and return it. A transport
error becomes a synthesized 500 and is not cached. -/
def forward_request (cache : List CacheEntry) (now : Nat) (meta : RequestMeta)
    (api : Except (List Char) TunnelResponse) : ForwardResult :=
  let keyOpt := get_idempotency_key meta.headers
  let lookup : Option TunnelResponse × List CacheEntry :=
    match keyOpt with
    | some key =>
      let c := cleanupCache now cache
      match c.find? (fun e => e.1 = key) with
      | some e => (if now - e.2.1 < 60 then some e.2.2 else none, c)
      | none => (none, c)
    | none => (none, cache)
  match lookup with
  | (some cached, c) => { response := cached, cache := c, forwarded := false }
  | (none, c) =>
    match api with
    | .ok resp =>
      let resp := errorBodyPatch meta resp
      let c2 := match keyOpt with
                | some key => cacheInsert c key now resp
                | none => c
      { response := resp, cache := c2, forwarded := true }
    | .error msg =>
      { response := { status := 500,
                      headers := [("content-type".data, "text/plain".data)],
                      body := msg.map Char.toNat },
        cache := c, forwarded := true }

theorem pairwise_of_forall {α : Type} (l : List α) (R : α → α → Prop)
    (h : ∀ a b, R a b) : l.Pairwise R := by
  induction l with
  | nil => exact List.Pairwise.nil
  | cons x xs ih => exact List.Pairwise.cons (fun b _ => h x b) ih

/-- Insertion sort leaves a timestamp-sorted list unchanged. -/
theorem sortEntriesByTs_of_sorted (l : List CacheEntry)
    (h : l.Pairwise (fun a b => a.2.1 ≤ b.2.1)) : sortEntriesByTs l = l := by
  induction l with
  | nil => rfl
  | cons x xs ih =>
    obtain ⟨hx, hxs⟩ := List.pairwise_cons.mp h
    show insertEntryByTs x (sortEntriesByTs xs) = x :: xs
    rw [ih hxs]
    cases xs with
    | nil => rfl
    | cons y ys =>
      show (if x.2.1 ≤ y.2.1 then x :: y :: ys else y :: insertEntryByTs x ys) = _
      rw [if_pos (hx y (List.mem_cons_self _ _))]

/-- If every element matching `p` fails `q`, the filtered list has no
`p`-match. -/
theorem find?_filter_none {α : Type} (l : List α) (p q : α → Bool)
    (h : ∀ a ∈ l, p a = true → q a = false) : (l.filter q).find? p = none := by
  induction l with
  | nil => rfl
  | cons x xs ih =>
    have ihxs := ih (fun a ha hp => h a (List.mem_cons_of_mem _ ha) hp)
    by_cases hq : q x = true
    · rw [List.filter_cons_of_pos hq]
      have hp : p x = false := by
        by_cases hp : p x = true
        · rw [h x (List.mem_cons_self _ _) hp] at hq; exact absurd hq (by simp)
        · simpa using hp
      rw [List.find?_cons_of_neg _ (by simp [hp]), ihxs]
    · rw [List.filter_cons_of_neg (by simpa using hq)]
      exact ihxs

/-- The first `p`-match survives filtering when it passes the filter. -/
theorem find?_filter_of_pass {α : Type} (l : List α) (p q : α → Bool) (a : α)
    (h : l.find? p = some a) (hq : q a = true) : (l.filter q).find? p = some a := by
  induction l with
  | nil => simp at h
  | cons x xs ih =>
    by_cases hp : p x = true
    · rw [List.find?_cons_of_pos _ hp] at h
      obtain rfl : x = a := by injection h
      rw [List.filter_cons_of_pos hq, List.find?_cons_of_pos _ hp]
    · rw [List.find?_cons_of_neg _ (by simpa using hp)] at h
      by_cases hqx : q x = true
      · rw [List.filter_cons_of_pos hqx, List.find?_cons_of_neg _ (by simpa using hp)]
        exact ih h
      · rw [List.filter_cons_of_neg (by simpa using hqx)]
        exact ih h

/-- Looking up the key just written by `cacheInsert` yields the new entry. -/
theorem find?_cacheInsert (m : List CacheEntry) (k : List Char) (ts : Nat)
    (r : TunnelResponse) :
    (cacheInsert m k ts r).find? (fun e => e.1 = k) = some (k, ts, r) := by
  induction m with
  | nil => simp [cacheInsert, List.find?]
  | cons x xs ih =>
    by_cases hx : x.1 = k
    · have hany : (x :: xs).any (fun e => decide (e.1 = k)) = true := by
        simp [List.any_cons, hx]
      rw [cacheInsert, if_pos hany]
      rw [List.map_cons, if_pos hx]
      rw [List.find?_cons_of_pos _ (by simp)]
    · by_cases hany : xs.any (fun e => decide (e.1 = k)) = true
      · have hany' : (x :: xs).any (fun e => decide (e.1 = k)) = true := by
          simp [List.any_cons, hany]
        rw [cacheInsert, if_pos hany']
        rw [List.map_cons, if_neg hx]
        rw [List.find?_cons_of_neg _ (by simpa using hx)]
        have := ih
        rw [cacheInsert, if_pos hany] at this
        exact this
      · have hany' : ¬((x :: xs).any (fun e => decide (e.1 = k)) = true) := by
          simp only [List.any_cons]
          simp [hx, hany]
        rw [cacheInsert, if_neg hany']
        rw [List.cons_append, List.find?_cons_of_neg _ (by simpa using hx)]
        have := ih
        rw [cacheInsert, if_neg hany] at this
        exact this

/-- With at most 1000 entries the cleanup pass only drops expired entries. -/
theorem cleanupCache_small (now : Nat) (cache : List CacheEntry)
    (hlen : cache.length ≤ 1000) :
    cleanupCache now cache = cache.filter (fun e => now - e.2.1 ≤ 60) := by
  unfold cleanupCache
  rw [if_neg]
  simp only [Nat.not_lt]
  exact le_trans (List.length_filter_le _ _) hlen

/-- Evaluation of `forward_request` when the cleaned cache holds a fresh
entry for the request's idempotency key: the cached response is returned
and no HTTP request is issued. -/
theorem forward_request_hit (cache : List CacheEntry) (now : Nat) (meta : RequestMeta)
    (key : List Char) (e : CacheEntry) (api : Except (List Char) TunnelResponse)
    (hkey : get_idempotency_key meta.headers = some key)
    (hfind2 : (cleanupCache now cache).find? (fun x => x.1 = key) = some e)
    (hfresh : now - e.2.1 < 60) :
    forward_request cache now meta api
      = { response := e.2.2, cache := cleanupCache now cache, forwarded := false } := by
  unfold forward_request
  rw [hkey]
  simp only [hfind2, if_pos hfresh]

theorem forward_request_miss_ok (cache : List CacheEntry) (now : Nat) (meta : RequestMeta)
    (key : List Char) (resp : TunnelResponse)
    (hkey : get_idempotency_key meta.headers = some key)
    (hnohit : ∀ e, (cleanupCache now cache).find? (fun x => x.1 = key) = some e →
        ¬(now - e.2.1 < 60)) :
    forward_request cache now meta (.ok resp)
      = { response := errorBodyPatch meta resp,
          cache := cacheInsert (cleanupCache now cache) key now (errorBodyPatch meta resp),
          forwarded := true } := by
  unfold forward_request
  rw [hkey]
  cases hfc : (cleanupCache now cache).find? (fun x => x.1 = key) with
  | none => simp only [hfc]
  | some e =>
    simp only [hfc, if_neg (hnohit e hfc)]

theorem forward_request_miss_err (cache : List CacheEntry) (now : Nat) (meta : RequestMeta)
    (key : List Char) (msg : List Char)
    (hkey : get_idempotency_key meta.headers = some key)
    (hnohit : ∀ e, (cleanupCache now cache).find? (fun x => x.1 = key) = some e →
        ¬(now - e.2.1 < 60)) :
    (forward_request cache now meta (.error msg)).forwarded = true := by
  unfold forward_request
  rw [hkey]
  cases hfc : (cleanupCache now cache).find? (fun x => x.1 = key) with
  | none => simp only [hfc]
  | some e =>
    simp only [hfc, if_neg (hnohit e hfc)]

/-- C1 (amended): for a request whose headers carry idempotency key `key`,
if the cache (a unique-key map of at most 1000 entries) holds `(key, t0, r)`
and the lookup happens less than 60 s after `t0`, `forward_request` returns
the stored response `r` unchanged without forwarding; at 60 s or more the
lookup misses and the request is forwarded; and every forwarded `Ok`
response is stored under the key. -/
theorem c1_idempotency_cache
    (cache : List CacheEntry) (now t0 : Nat) (meta : RequestMeta) (key : List Char)
    (r : TunnelResponse) (api : Except (List Char) TunnelResponse)
    (hkey : get_idempotency_key meta.headers = some key)
    (hnodup : (cache.map (fun e => e.1)).Nodup)
    (hlen : cache.length ≤ 1000)
    (hfind : cache.find? (fun e => e.1 = key) = some (key, t0, r)) :
    (now - t0 < 60 →
        forward_request cache now meta api
          = { response := r, cache := cleanupCache now cache, forwarded := false })
      ∧ (60 ≤ now - t0 → (forward_request cache now meta api).forwarded = true)
      ∧ (∀ resp, api = .ok resp → (forward_request cache now meta api).forwarded = true →
          (forward_request cache now meta api).cache.find? (fun e => e.1 = key)
            = some (key, now, errorBodyPatch meta resp)) := by
  have hclean := cleanupCache_small now cache hlen
  refine ⟨?_, ?_, ?_⟩
  · intro h60
    have hq : (fun e : CacheEntry => decide (now - e.2.1 ≤ 60)) (key, t0, r) = true := by
      simp; omega
    have hfc : (cleanupCache now cache).find? (fun x => x.1 = key) = some (key, t0, r) := by
      rw [hclean]
      exact find?_filter_of_pass cache _ _ _ hfind hq
    exact forward_request_hit cache now meta key (key, t0, r) api hkey hfc h60
  · intro h60
    have hnohit : ∀ e, (cleanupCache now cache).find? (fun x => x.1 = key) = some e →
        ¬(now - e.2.1 < 60) := by
      intro e hfc
      rw [hclean] at hfc
      have hmem : e ∈ cache.filter (fun e => decide (now - e.2.1 ≤ 60)) :=
        List.mem_of_find?_eq_some hfc
      have hpe : e.1 = key := by simpa using List.find?_some hfc
      obtain ⟨hmem2, _⟩ := List.mem_filter.mp hmem
      have hkeymem : (key, t0, r) ∈ cache := List.mem_of_find?_eq_some hfind
      have : e = (key, t0, r) :=
        List.inj_on_of_nodup_map hnodup hmem2 hkeymem (by simpa using hpe)
      subst this
      show ¬(now - t0 < 60)
      omega
    cases api with
    | ok resp => rw [forward_request_miss_ok cache now meta key resp hkey hnohit]
    | error msg => exact forward_request_miss_err cache now meta key msg hkey hnohit
  · intro resp hapi hforw
    subst hapi
    by_cases h60 : now - t0 < 60
    · have hq : (fun e : CacheEntry => decide (now - e.2.1 ≤ 60)) (key, t0, r) = true := by
        simp; omega
      have hfc : (cleanupCache now cache).find? (fun x => x.1 = key) = some (key, t0, r) := by
        rw [hclean]
        exact find?_filter_of_pass cache _ _ _ hfind hq
      rw [forward_request_hit cache now meta key (key, t0, r) (.ok resp) hkey hfc h60] at hforw
      simp at hforw
    · have hnohit : ∀ e, (cleanupCache now cache).find? (fun x => x.1 = key) = some e →
          ¬(now - e.2.1 < 60) := by
        intro e hfc
        rw [hclean] at hfc
        have hmem : e ∈ cache.filter (fun e => decide (now - e.2.1 ≤ 60)) :=
          List.mem_of_find?_eq_some hfc
        have hpe : e.1 = key := by simpa using List.find?_some hfc
        obtain ⟨hmem2, _⟩ := List.mem_filter.mp hmem
        have hkeymem : (key, t0, r) ∈ cache := List.mem_of_find?_eq_some hfind
        have : e = (key, t0, r) :=
          List.inj_on_of_nodup_map hnodup hmem2 hkeymem (by simpa using hpe)
        subst this
        show ¬(now - t0 < 60)
        omega
      rw [forward_request_miss_ok cache now meta key resp hkey hnohit]
      exact find?_cacheInsert _ key now _

/-- C1 counterexample: with 1001 cached entries the cleanup pass runs the
oversize eviction, which removes the oldest fifth of the keys even when
their entries are younger than 60 s. The entry `("k", 0, cacheResp)` was
stored 30 s before the lookup — within TTL — yet the second request is
forwarded again and returns the fresh response, contradicting the claim for
every tunnel request. -/
def cacheResp : TunnelResponse := { status := 200, headers := [], body := [1] }

def freshResp : TunnelResponse := { status := 200, headers := [], body := [2] }

def fillerEntries : List CacheEntry :=
  (List.range 1000).map (fun i => ([Char.ofNat (1100 + i)], 30, cacheResp))

def overfullCache : List CacheEntry := ("k".data, 0, cacheResp) :: fillerEntries

def idemMeta : RequestMeta :=
  { method := "POST".data, path := "/computer/input/mouse/click".data,
    headers := some [("X-Idempotency-Key".data, "k".data)] }

theorem c1_counterexample :
    overfullCache.find? (fun e => e.1 = "k".data) = some ("k".data, 0, cacheResp)
      ∧ (30 : Nat) - 0 < 60
      ∧ (forward_request overfullCache 30 idemMeta (.ok freshResp)).forwarded = true
      ∧ (forward_request overfullCache 30 idemMeta (.ok freshResp)).response = freshResp
      ∧ freshResp ≠ cacheResp := by
  have hret : overfullCache.filter (fun e => decide (30 - e.2.1 ≤ 60)) = overfullCache := by
    apply List.filter_eq_self.mpr
    intro a ha
    rcases List.mem_cons.mp ha with rfl | ha
    · decide
    · obtain ⟨i, _, rfl⟩ := List.mem_map.mp ha
      show decide ((30 : Nat) - 30 ≤ 60) = true
      decide
  have hlen : overfullCache.length = 1001 := by
    simp [overfullCache, fillerEntries]
  have hpw : overfullCache.Pairwise (fun a b => a.2.1 ≤ b.2.1) := by
    apply List.Pairwise.cons
    · intro b hb
      obtain ⟨i, _, rfl⟩ := List.mem_map.mp hb
      show (0 : Nat) ≤ 30
      norm_num
    · rw [fillerEntries, List.pairwise_map]
      exact pairwise_of_forall _ _ (fun a b => le_refl 30)
  have hsort : sortEntriesByTs overfullCache = overfullCache :=
    sortEntriesByTs_of_sorted overfullCache hpw
  have hktake : "k".data ∈ ((sortEntriesByTs overfullCache).take
      (overfullCache.length / 5)).map (fun e => e.1) := by
    rw [hsort, hlen]
    show "k".data ∈ (((("k".data, 0, cacheResp) : CacheEntry) :: fillerEntries).take 200).map
      (fun e => e.1)
    rw [show (200 : Nat) = 199 + 1 from rfl, List.take_succ_cons]
    exact List.mem_map.mpr ⟨_, List.mem_cons_self _ _, rfl⟩
  have hfind_clean : (cleanupCache 30 overfullCache).find? (fun e => e.1 = "k".data)
      = none := by
    unfold cleanupCache
    simp only [hret]
    rw [if_pos (by rw [hlen]; norm_num)]
    apply find?_filter_none
    intro a _ hp
    have hak : a.1 = "k".data := by simpa using hp
    have : (((sortEntriesByTs overfullCache).take (overfullCache.length / 5)).map
        (fun e => e.1)).contains a.1 = true := by
      rw [hak]
      exact List.elem_iff.mpr hktake
    simp only [this, Bool.not_true]
  have hnohit : ∀ e, (cleanupCache 30 overfullCache).find? (fun x => x.1 = "k".data)
      = some e → ¬(30 - e.2.1 < 60) := by
    intro e he
    rw [hfind_clean] at he
    cases he
  have hkey : get_idempotency_key idemMeta.headers = some "k".data := by decide
  have hmain := forward_request_miss_ok overfullCache 30 idemMeta "k".data freshResp hkey hnohit
  refine ⟨?_, by norm_num, ?_, ?_, by decide⟩
  · rw [overfullCache, List.find?_cons_of_pos _ (by decide)]
  · rw [hmain]
  · rw [hmain]
    decide


/-- A one-entry cache holding `("k", 0, cacheResp)` looked up 30 s later:
the stored response is returned unchanged without forwarding. -/
theorem c1_idempotency_cache_witness :
    get_idempotency_key idemMeta.headers = some "k".data
      ∧ (([("k".data, 0, cacheResp)] : List CacheEntry).map (fun e => e.1)).Nodup
      ∧ ([("k".data, 0, cacheResp)] : List CacheEntry).length ≤ 1000
      ∧ ([("k".data, 0, cacheResp)] : List CacheEntry).find? (fun e => e.1 = "k".data)
          = some ("k".data, 0, cacheResp)
      ∧ forward_request [("k".data, 0, cacheResp)] 30 idemMeta (.ok freshResp)
          = { response := cacheResp, cache := [("k".data, 0, cacheResp)],
              forwarded := false } := by
  refine ⟨by decide, by decide, by decide, by decide, ?_⟩
  have h := (c1_idempotency_cache [("k".data, 0, cacheResp)] 30 0 idemMeta "k".data
      cacheResp (.ok freshResp) (by decide) (by decide) (by decide) (by decide)).1
      (by norm_num)
  rw [h]
  have hc : cleanupCache 30 [(("k".data, 0, cacheResp) : CacheEntry)]
      = [("k".data, 0, cacheResp)] := by decide
  rw [hc]


/-! ## Screenshot target dimensions (`cyberdriver/api.rs`)

`determine_target_dimensions` (api.rs lines 849-860) resolves the optional
`width`/`height` query parameters into a target hint, and `capture_screen`
(api.rs lines 862-930) turns the hint into the actual resize decision. The
dimension bookkeeping of `capture_screen` is embedded below as pure
functions of the query parameters, the scale mode, the backend, the
captured frame's dimensions, the backend-reported original dimensions
(equal to the captured ones for the xcap backend) and the logical display
dimensions. Aspect-fit/fill output sizes go through `f32` arithmetic and
are not modelled; the resize decision itself (`needs_resize`) is
mode-independent, and the exact-mode output size is `resize_exact`'s
target. -/

inductive ScaleMode where
  | exact
  | aspectFit
  | aspectFill
deriving DecidableEq, Repr

inductive ScreenshotBackend where
  | xcap
  | screenCaptureKit
deriving DecidableEq, Repr

/-- `determine_target_dimensions` (api.rs lines 849-860): both given → use
them; exactly one given → no hint; neither → logical display dimensions. -/
def determine_target_dimensions (width height : Option Nat)
    (logical : Option (Nat × Nat)) : Option (Nat × Nat) :=
  match width, height with
  | some w, some h => some (w, h)
  | _, _ =>
    if width.isSome || height.isSome then none
    else logical

/-- The resize target `capture_screen` computes (api.rs lines 880-896):
the hint when present, else per-axis fallback `width.unwrap_or(orig_w)`,
`height.unwrap_or(orig_h)`; overridden by the captured dimensions when the
xcap backend captured with no requested dimensions in exact mode. -/
def captureTargetDims (width height : Option Nat) (mode : ScaleMode)
    (backend : ScreenshotBackend) (captured orig : Nat × Nat)
    (logical : Option (Nat × Nat)) : Nat × Nat :=
  let hint := determine_target_dimensions width height logical
  let t := match hint with
    | some t => t
    | none => (width.getD orig.1, height.getD orig.2)
  if backend = .xcap ∧ width = none ∧ height = none ∧ mode = .exact
  then captured else t

/-- `needs_resize` (api.rs line 898): the target differs from the captured
frame. -/
def captureNeedsResize (width height : Option Nat) (mode : ScaleMode)
    (backend : ScreenshotBackend) (captured orig : Nat × Nat)
    (logical : Option (Nat × Nat)) : Bool :=
  captureTargetDims width height mode backend captured orig logical ≠ captured

/-- The dimensions of the returned PNG in exact mode (api.rs lines 899-906
with `scale_image`'s `Exact` arm, api.rs 1052-1056: `resize_exact` to the
target). -/
def captureOutDimsExact (width height : Option Nat)
    (backend : ScreenshotBackend) (captured orig : Nat × Nat)
    (logical : Option (Nat × Nat)) : Nat × Nat :=
  if captureNeedsResize width height .exact backend captured orig logical
  then captureTargetDims width height .exact backend captured orig logical
  else captured

/-- C6 counterexample: a screenshot request with only `width = 800` against
a 1920×1080 capture. The resolver does return no target hint, but the
frame is NOT used as-is: the fallback applies the supplied width, a resize
is performed, and the PNG is 800×1080, not the captured 1920×1080. -/
theorem c6_counterexample :
    determine_target_dimensions (some 800) none (some (1920, 1080)) = none
      ∧ captureNeedsResize (some 800) none .exact .xcap (1920, 1080) (1920, 1080)
          (some (1920, 1080)) = true
      ∧ captureOutDimsExact (some 800) none .xcap (1920, 1080) (1920, 1080)
          (some (1920, 1080)) = (800, 1080)
      ∧ ((800, 1080) : Nat × Nat) ≠ (1920, 1080) := by
  refine ⟨by decide, by decide, by decide, by decide⟩

/-- C6 (amended): when exactly one of width and height is supplied, the
target-dimension resolver returns no target hint, but the capture is not
used as-is: the pipeline falls back to the per-axis targets (supplied value
on the given axis, original dimension on the other), performs a resize
exactly when that target differs from the captured frame, and in exact mode
the returned PNG has the fallback target dimensions. -/
theorem c6_single_dimension (width height : Option Nat) (mode : ScaleMode)
    (backend : ScreenshotBackend) (captured orig : Nat × Nat)
    (logical : Option (Nat × Nat))
    (h : (∃ w, width = some w ∧ height = none)
        ∨ (width = none ∧ ∃ hv, height = some hv)) :
    determine_target_dimensions width height logical = none
      ∧ captureTargetDims width height mode backend captured orig logical
          = (width.getD orig.1, height.getD orig.2)
      ∧ captureOutDimsExact width height backend captured orig logical
          = (width.getD orig.1, height.getD orig.2)
      ∧ (captureNeedsResize width height mode backend captured orig logical = true
          ↔ (width.getD orig.1, height.getD orig.2) ≠ captured) := by
  have hdet : determine_target_dimensions width height logical = none := by
    rcases h with ⟨w, rfl, rfl⟩ | ⟨rfl, hv, rfl⟩ <;> rfl
  have htgtAll : ∀ m : ScaleMode,
      captureTargetDims width height m backend captured orig logical
        = (width.getD orig.1, height.getD orig.2) := by
    intro m
    unfold captureTargetDims
    rw [hdet]
    rcases h with ⟨w, rfl, rfl⟩ | ⟨rfl, hv, rfl⟩ <;> simp
  refine ⟨hdet, htgtAll mode, ?_, ?_⟩
  · unfold captureOutDimsExact
    by_cases hr : captureNeedsResize width height .exact backend captured orig logical = true
    · rw [if_pos hr, htgtAll .exact]
    · rw [if_neg hr]
      have hne : ¬(captureTargetDims width height .exact backend captured orig logical
          ≠ captured) := by
        simpa [captureNeedsResize] using hr
      rw [htgtAll .exact] at hne
      push_neg at hne
      exact hne.symm
  · rw [captureNeedsResize, htgtAll mode]
    simp

/-- The amended C6 statement at width 800 against a 1920×1080 capture. -/
theorem c6_single_dimension_witness :
    ((∃ w, (some 800 : Option Nat) = some w ∧ (none : Option Nat) = none)
        ∨ ((some 800 : Option Nat) = none ∧ ∃ hv, (none : Option Nat) = some hv))
      ∧ (determine_target_dimensions (some 800) none (some (1920, 1080)) = none
          ∧ captureTargetDims (some 800) none .exact .xcap (1920, 1080) (1920, 1080)
              (some (1920, 1080)) = ((some 800).getD 1920, (none : Option Nat).getD 1080)
          ∧ captureOutDimsExact (some 800) none .xcap (1920, 1080) (1920, 1080)
              (some (1920, 1080)) = ((some 800).getD 1920, (none : Option Nat).getD 1080)
          ∧ (captureNeedsResize (some 800) none .exact .xcap (1920, 1080) (1920, 1080)
              (some (1920, 1080)) = true
            ↔ (((some 800).getD 1920 : Nat), ((none : Option Nat).getD 1080 : Nat))
                ≠ (1920, 1080))) :=
  ⟨Or.inl ⟨800, rfl, rfl⟩,
   c6_single_dimension (some 800) none .exact .xcap (1920, 1080) (1920, 1080)
     (some (1920, 1080)) (Or.inl ⟨800, rfl, rfl⟩)⟩


/-! ## Filesystem write path (`cyberdriver/api.rs`, `post_fs_write`)

`post_fs_write` (api.rs lines 580-621) expands the request path with
`ExpandPath::expand_dir` (api.rs 1121-1131) and redirects it into
`$HOME/CyberdeskTransfers/` when `safe_path.parent()` equals `Path::new(".")`.
Rust `Path` semantics (Unix, no prefixes) are embedded below: equality
compares parsed components, `.` is kept only as a leading component, and
`parent()` drops the final component, returning `None` for an empty path or
a bare root. -/

/-- One component of a Rust `Path`, as produced by `Path::components()`. -/
inductive PathComp where
  | rootDir
  | curDir
  | parentDir
  | normal (name : List Char)
deriving DecidableEq, Repr

/-- A non-empty, non-dot, non-dotdot piece becomes a `Normal` component;
`.` pieces are dropped (except the leading one, handled by
`pathComponents`), empty pieces always. -/
def pieceToComp (p : List Char) : Option PathComp :=
  if p = [] then none
  else if p = ".".data then none
  else if p = "..".data then some .parentDir
  else some (.normal p)

/-- `Path::components()` for Unix paths without prefixes: a leading `/`
yields `RootDir`; a leading `.` piece of a relative path yields `CurDir`;
remaining pieces through `pieceToComp`. -/
def pathComponents (s : List Char) : List PathComp :=
  if s = [] then []
  else
    let root := s.head? = some '/'
    let pieces := splitOnP (· = '/') s
    let lead : List PathComp :=
      if root then [.rootDir]
      else if pieces.head? = some ".".data then [.curDir]
      else []
    lead ++ pieces.filterMap pieceToComp

/-- `Path::parent()`: the path without its final component; `None` when the
path is empty or ends (and hence consists only) of the root. -/
def pathParent (comps : List PathComp) : Option (List PathComp) :=
  match comps.getLast? with
  | none => none
  | some .rootDir => none
  | some _ => some comps.dropLast

/-- `Path::file_name()`: the final component when it is a normal name. -/
def pathFileName (comps : List PathComp) : Option (List Char) :=
  match comps.getLast? with
  | some (.normal n) => some n
  | _ => none

/-- `ExpandPath::expand_dir` (api.rs lines 1121-1131): a path starting with
`~` has that first character replaced by the home directory. -/
def expand_dir (home : List Char) (s : List Char) : List Char :=
  match s with
  | '~' :: rest => home ++ rest
  | _ => s

/-- The destination path `post_fs_write` writes to (api.rs lines 592-598):
after expansion, if the path's parent equals `Path::new(".")` the write is
redirected to `$HOME/CyberdeskTransfers/<file_name>` (the `unwrap` on
`file_name` is total in that branch for the inputs of interest; modelled
with a default). -/
def fsWriteTarget (home path : List Char) : List Char :=
  let safe := expand_dir home path
  let isDotParent : Bool :=
    match pathParent (pathComponents safe) with
    | some p => p = [PathComp.curDir]
    | none => false
  if isDotParent then
    home ++ "/CyberdeskTransfers/".data ++ (pathFileName (pathComponents safe)).getD []
  else safe

/-- C7: a bare filename is NOT redirected into the transfer directory. In
Rust, `Path::new("report.txt").parent()` is `Some("")` whose component list
is empty, while `Path::new(".")` has the single component `CurDir`; the
equality test in `post_fs_write` therefore fails and the file is written to
the working-directory-relative path `report.txt`. Only an explicitly
dot-prefixed path such as `./report.txt` triggers the redirect. -/
theorem c7_bare_filename_not_redirected :
    pathComponents "report.txt".data = [.normal "report.txt".data]
      ∧ pathParent (pathComponents "report.txt".data) = some []
      ∧ ([] : List PathComp) ≠ [PathComp.curDir]
      ∧ fsWriteTarget "/home/user".data "report.txt".data = "report.txt".data
      ∧ fsWriteTarget "/home/user".data "./report.txt".data
          = "/home/user/CyberdeskTransfers/report.txt".data := by
  refine ⟨by decide, by decide, by decide, by decide, by decide⟩


/-! ## Activity recording by the API handlers (`cyberdriver/api.rs`)

Each input-synthesizing handler body (api.rs: `post_keyboard_type` 262-274,
`post_keyboard_key` 276-293, `post_copy_to_clipboard` 295-333,
`post_mouse_move` 350-358, `post_mouse_click` 369-416, `post_mouse_drag`
432-470, `post_mouse_scroll` 480-497) is embedded as the ordered list of
its observable calls into the input module, the clipboard, and the
`KeepAliveManager`. The tunnel's forwarding path (tunnel.rs 207-222 and
256-259) and the `/internal/keepalive/remote/activity` route (api.rs
726-729) are embedded the same way. A handler returning `Except.error`
models an early 400 response. -/

/-- An observable call made while handling a request. -/
inductive ApiEffect where
  | recordActivity
  | waitUntilIdle
  | inputTypeText (text : List Char)
  | inputExecuteXdo (seq : List Char)
  | inputMoveMouse (x y : Int)
  | inputMouseClick (x y : Option Int) (press release : Bool) (clicks : Nat)
  | inputMouseDrag (sx sy ex ey : Int)
  | inputMouseScroll (direction : List Char) (amount : Int)
  | clipboardClear
  | clipboardRead
  | debugLog
  | forwardHttp
deriving DecidableEq, Repr

/-- `post_keyboard_type` (api.rs lines 262-274). -/
def post_keyboard_type (text : List Char) : Except (List Char) (List ApiEffect) :=
  if text = [] then .error "Missing 'text' field".data
  else .ok [.inputTypeText text]

/-- `post_keyboard_key` (api.rs lines 276-293). -/
def post_keyboard_key (text : List Char) : Except (List Char) (List ApiEffect) :=
  if text = [] then .error "Missing 'text' field".data
  else .ok [.debugLog, .inputExecuteXdo text]

/-- `post_copy_to_clipboard` (api.rs lines 295-333): clear the clipboard,
emit `ctrl+c`, poll the clipboard (collapsed to one read effect). -/
def post_copy_to_clipboard (text : List Char) : Except (List Char) (List ApiEffect) :=
  if text = [] then .error "Missing 'text' field (key name)".data
  else .ok [.clipboardClear, .inputExecuteXdo "ctrl+c".data, .clipboardRead]

/-- `post_mouse_move` (api.rs lines 350-358). -/
def post_mouse_move (x y : Int) : Except (List Char) (List ApiEffect) :=
  .ok [.inputMoveMouse x y]

/-- `post_mouse_click` (api.rs lines 369-416): button validation, debug
log, then either the `down` form or the `clicks` form of `mouse_click`. -/
def post_mouse_click (x y : Option Int) (button : Option (List Char))
    (down : Option Bool) (clicks : Option Nat) : Except (List Char) (List ApiEffect) :=
  let btn := button.getD "left".data
  if btn = "left".data ∨ btn = "right".data ∨ btn = "middle".data then
    match down with
    | some d => .ok [.debugLog, .inputMouseClick x y d (!d) 0]
    | none =>
      let c := clicks.getD 1
      if c < 1 ∨ c > 3 then .error "clicks must be 1, 2, or 3".data
      else .ok [.debugLog, .inputMouseClick x y false false c]
  else .error "Invalid button".data

/-- `post_mouse_drag` (api.rs lines 432-470): alias resolution
(`start_*|from_*`, `to_*|x,y`), then `mouse_drag`. -/
def post_mouse_drag (startX startY fromX fromY toX toY x y : Option Int)
    (button : Option (List Char)) : Except (List Char) (List ApiEffect) :=
  let btn := button.getD "left".data
  if btn = "left".data ∨ btn = "right".data ∨ btn = "middle".data then
    match toX.orElse (fun _ => x), toY.orElse (fun _ => y),
        startX.orElse (fun _ => fromX), startY.orElse (fun _ => fromY) with
    | some ex, some ey, some sx, some sy => .ok [.inputMouseDrag sx sy ex ey]
    | _, _, _, _ => .error "Missing coordinates".data
  else .error "Invalid button".data

/-- `post_mouse_scroll` (api.rs lines 480-497). -/
def post_mouse_scroll (direction : List Char) (amount : Int) :
    Except (List Char) (List ApiEffect) :=
  if amount < 0 then .error "'amount' must be non-negative".data
  else .ok [.inputMouseScroll (lowerChars direction) amount]

/-- `post_keepalive_activity` (api.rs lines 726-729). -/
def post_keepalive_activity : Except (List Char) (List ApiEffect) :=
  .ok [.recordActivity]

/-- The tunnel's handling of a complete request (meta frame then `end`,
tunnel.rs lines 207-222) with the keep-alive manager configured and a cache
miss: `record_activity` on the meta frame, then inside `forward_request`
(tunnel.rs 256-259) `wait_until_idle`, `record_activity`, and the loopback
HTTP call. -/
def tunnelRequestEffects : List ApiEffect :=
  [.recordActivity, .recordActivity, .waitUntilIdle, .recordActivity, .forwardHttp]

/-- The effects of a handler run, empty for an early error response. -/
def effectsOf : Except (List Char) (List ApiEffect) → List ApiEffect
  | .ok effs => effs
  | .error _ => []

/-- C8 counterexample: the keyboard-type handler, on a successful request,
performs its input synthesis without ever invoking `record_activity` on the
keep-alive manager, so handling the request does not push the coordinator's
next-allowed instant. -/
theorem c8_counterexample :
    effectsOf (post_keyboard_type "hello".data) = [.inputTypeText "hello".data]
      ∧ ApiEffect.recordActivity ∉ effectsOf (post_keyboard_type "hello".data) := by
  refine ⟨by decide, by decide⟩

/-- C8 (amended): none of the input-synthesizing local HTTP handlers
(keyboard type, keyboard key, mouse move, mouse click, mouse drag, mouse
scroll, copy-to-clipboard) invokes `record_activity`; the coordinator's
next-allowed instant is pushed only by the tunnel path — which records
activity on every meta frame and before every forward — and by the
explicit `/internal/keepalive/remote/activity` route. -/
theorem c8_record_activity_only_on_tunnel_path
    (text seq clip : List Char) (mx my : Int) (cx cy : Option Int)
    (button : Option (List Char)) (down : Option Bool) (clicks : Option Nat)
    (sx sy fx fy tx ty dx dy : Option Int) (dbutton : Option (List Char))
    (sdir : List Char) (samount : Int) :
    ApiEffect.recordActivity ∉ effectsOf (post_keyboard_type text)
      ∧ ApiEffect.recordActivity ∉ effectsOf (post_keyboard_key seq)
      ∧ ApiEffect.recordActivity ∉ effectsOf (post_copy_to_clipboard clip)
      ∧ ApiEffect.recordActivity ∉ effectsOf (post_mouse_move mx my)
      ∧ ApiEffect.recordActivity ∉ effectsOf (post_mouse_click cx cy button down clicks)
      ∧ ApiEffect.recordActivity ∉ effectsOf
          (post_mouse_drag sx sy fx fy tx ty dx dy dbutton)
      ∧ ApiEffect.recordActivity ∉ effectsOf (post_mouse_scroll sdir samount)
      ∧ ApiEffect.recordActivity ∈ tunnelRequestEffects
      ∧ ApiEffect.recordActivity ∈ effectsOf post_keepalive_activity := by
  refine ⟨?_, ?_, ?_, ?_, ?_, ?_, ?_, by decide, by decide⟩
  · unfold post_keyboard_type
    split <;> simp [effectsOf]
  · unfold post_keyboard_key
    split <;> simp [effectsOf]
  · unfold post_copy_to_clipboard
    split <;> simp [effectsOf]
  · simp [post_mouse_move, effectsOf]
  · cases down with
    | some d =>
      simp only [post_mouse_click]
      split <;> simp [effectsOf]
    | none =>
      simp only [post_mouse_click]
      split
      · split <;> simp [effectsOf]
      · simp [effectsOf]
  · unfold post_mouse_drag
    split
    · dsimp only
      split <;> simp [effectsOf]
    · dsimp only
      split <;> simp [effectsOf]
  · unfold post_mouse_scroll
    split <;> simp [effectsOf]


/-! ## Shell output truncation (`cyberdriver/api.rs`, `truncate_output`)

`truncate_output` (api.rs lines 1134-1142) works on the UTF-8 bytes of the
string: `output.len()` is the byte length, and `&output[..7500]` /
`&output[len-7500..]` are byte slices, which PANIC when the index is not a
character boundary. The model works on the byte list; `none` models the
panic. -/

/-- Rust `str::is_char_boundary`: index 0 or the length, or a byte that is
not a UTF-8 continuation byte. -/
def isCharBoundary (bytes : List Nat) (i : Nat) : Bool :=
  if i = 0 then true
  else
    match bytes.drop i with
    | [] => i = bytes.length
    | b :: _ => !(decide (128 ≤ b ∧ b < 192))

/-- The middle-ellipsis separator that
`format!("{head}\n... (truncated) ...\n{tail}")` inserts, as bytes. -/
def truncSep : List Nat := "\n... (truncated) ...\n".data.map Char.toNat

/-- `truncate_output` (api.rs lines 1134-1142) over the string's bytes:
inputs of at most 15000 bytes are returned unchanged; longer inputs are
byte-sliced at 7500 and len−7500 and joined by the separator — provided
both byte indices are character boundaries; otherwise the slice panics
(`none`). -/
def truncate_output (bytes : List Nat) : Option (List Nat) :=
  if bytes.length ≤ 15000 then some bytes
  else
    if isCharBoundary bytes (15000 / 2)
        ∧ isCharBoundary bytes (bytes.length - 15000 / 2) then
      some (bytes.take (15000 / 2) ++ truncSep
        ++ bytes.drop (bytes.length - 15000 / 2))
    else none

/-- A UTF-8 continuation byte. -/
def contB (b : Nat) : Bool := decide (128 ≤ b ∧ b ≤ 191)

/-- UTF-8 validity of a byte list (RFC 3629 ranges, overlongs and
surrogates excluded), with a step-count fuel: each step consumes at least
one byte, so any fuel of at least the list's length is enough. -/
def validUtf8Go : Nat → List Nat → Bool
  | _, [] => true
  | 0, _ :: _ => false
  | f + 1, b :: rest =>
    if b < 128 then validUtf8Go f rest
    else if 194 ≤ b ∧ b ≤ 223 then
      match rest with
      | b2 :: rest2 => contB b2 && validUtf8Go f rest2
      | [] => false
    else if b = 224 then
      match rest with
      | b2 :: b3 :: rest3 =>
        decide (160 ≤ b2 ∧ b2 ≤ 191) && contB b3 && validUtf8Go f rest3
      | _ => false
    else if (225 ≤ b ∧ b ≤ 236) ∨ b = 238 ∨ b = 239 then
      match rest with
      | b2 :: b3 :: rest3 => contB b2 && contB b3 && validUtf8Go f rest3
      | _ => false
    else if b = 237 then
      match rest with
      | b2 :: b3 :: rest3 =>
        decide (128 ≤ b2 ∧ b2 ≤ 159) && contB b3 && validUtf8Go f rest3
      | _ => false
    else if b = 240 then
      match rest with
      | b2 :: b3 :: b4 :: rest4 =>
        decide (144 ≤ b2 ∧ b2 ≤ 191) && contB b3 && contB b4 && validUtf8Go f rest4
      | _ => false
    else if 241 ≤ b ∧ b ≤ 243 then
      match rest with
      | b2 :: b3 :: b4 :: rest4 =>
        contB b2 && contB b3 && contB b4 && validUtf8Go f rest4
      | _ => false
    else if b = 244 then
      match rest with
      | b2 :: b3 :: b4 :: rest4 =>
        decide (128 ≤ b2 ∧ b2 ≤ 143) && contB b3 && contB b4 && validUtf8Go f rest4
      | _ => false
    else false

/-- UTF-8 validity of a byte list. -/
def validUtf8 (l : List Nat) : Bool := validUtf8Go l.length l

/-- The UTF-8 bytes of `"a"` followed by 7500 copies of `"é"` (C3 A9):
15001 bytes, with the byte at index 7500 a continuation byte. -/
def c9FailingInput : List Nat := 97 :: (List.replicate 7500 [195, 169]).flatten

theorem validUtf8Go_cons97 (f : Nat) (rest : List Nat) :
    validUtf8Go (f + 1) (97 :: rest) = validUtf8Go f rest := rfl

theorem validUtf8Go_cons_pair (f : Nat) (rest : List Nat) :
    validUtf8Go (f + 1) (195 :: 169 :: rest) = validUtf8Go f rest := rfl

theorem validUtf8Go_pairs (n : Nat) :
    ∀ f, 2 * n ≤ f →
      validUtf8Go f ((List.replicate n [195, 169]).flatten) = true := by
  induction n with
  | zero =>
    intro f _
    cases f <;> rfl
  | succ m ih =>
    intro f hf
    obtain ⟨g, rfl⟩ : ∃ g, f = g + 1 := ⟨f - 1, by omega⟩
    rw [List.replicate_succ, List.flatten_cons]
    show validUtf8Go (g + 1) (195 :: 169 :: (List.replicate m [195, 169]).flatten) = true
    rw [validUtf8Go_cons_pair]
    obtain ⟨g2, rfl⟩ : ∃ g2, g = g2 + 1 := ⟨g - 1, by omega⟩
    exact ih (g2 + 1) (by omega)

theorem length_pairs_flatten (a b : Nat) (n : Nat) :
    ((List.replicate n [a, b]).flatten).length = 2 * n := by
  induction n with
  | zero => rfl
  | succ m ih =>
    rw [List.replicate_succ, List.flatten_cons]
    simp only [List.length_append, List.length_cons, List.length_nil, ih]
    omega

theorem drop_pairs_odd (a b : Nat) : ∀ (j k : Nat), j < k →
    ((List.replicate k [a, b]).flatten).drop (2 * j + 1)
      = b :: ((List.replicate (k - j - 1) [a, b]).flatten) := by
  intro j
  induction j with
  | zero =>
    intro k hk
    cases k with
    | zero => omega
    | succ m =>
      rw [List.replicate_succ, List.flatten_cons]
      rfl
  | succ i ih =>
    intro k hk
    cases k with
    | zero => omega
    | succ m =>
      rw [List.replicate_succ, List.flatten_cons]
      have h2 : 2 * (i + 1) + 1 = (2 * i + 1) + 2 := by omega
      rw [h2]
      show ((List.replicate m [a, b]).flatten).drop (2 * i + 1) = _
      rw [ih m (by omega)]
      have harg : m + 1 - (i + 1) - 1 = m - i - 1 := by omega
      rw [harg]

/-- C9: `truncate_output` byte-slices the string, and on the valid UTF-8
input `"a"` followed by 7500 copies of `"é"` (15001 bytes) the slice index
7500 falls inside a two-byte character: the code panics instead of
returning a truncated string. On the 15001-byte ASCII input it returns
7500 + 21 + 7500 = 15021 characters, exceeding the claimed 15000. -/
theorem c9_truncate_output_panics :
    validUtf8 c9FailingInput = true
      ∧ c9FailingInput.length = 15001
      ∧ truncate_output c9FailingInput = none
      ∧ truncate_output (List.replicate 15001 97)
          = some (List.replicate 7500 97 ++ truncSep ++ List.replicate 7500 97)
      ∧ (List.replicate 7500 97 ++ truncSep ++ List.replicate 7500 (97 : Nat)).length
          = 15021 := by
  have hsep : truncSep.length = 21 := by decide
  have hlen : c9FailingInput.length = 15001 := by
    rw [c9FailingInput, List.length_cons, length_pairs_flatten]
  have hdrop : c9FailingInput.drop 7500
      = 169 :: ((List.replicate 3750 [195, 169]).flatten) := by
    rw [c9FailingInput, show (7500 : Nat) = 7499 + 1 from rfl, List.drop_succ_cons]
    have h7499 : (7499 : Nat) = 2 * 3749 + 1 := by norm_num
    rw [h7499, drop_pairs_odd 195 169 3749 7500 (by norm_num)]
  have hbound : isCharBoundary c9FailingInput 7500 = false := by
    rw [isCharBoundary, if_neg (by norm_num), hdrop]
    rfl
  refine ⟨?_, hlen, ?_, ?_, ?_⟩
  · rw [validUtf8, hlen, c9FailingInput]
    rw [show (15001 : Nat) = 15000 + 1 from rfl, validUtf8Go_cons97]
    exact validUtf8Go_pairs 7500 15000 (by norm_num)
  · rw [truncate_output, if_neg (by rw [hlen]; norm_num), if_neg]
    rintro ⟨h1, -⟩
    rw [show (15000 : Nat) / 2 = 7500 from by norm_num, hbound] at h1
    exact Bool.false_ne_true h1
  · have hb1 : isCharBoundary (List.replicate 15001 (97 : Nat)) 7500 = true := by
      rw [isCharBoundary, if_neg (by norm_num), List.drop_replicate]
      rw [show (15001 : Nat) - 7500 = 7500 + 1 from by norm_num, List.replicate_succ]
      rfl
    have hb2 : isCharBoundary (List.replicate 15001 (97 : Nat))
        ((List.replicate 15001 (97 : Nat)).length - 15000 / 2) = true := by
      rw [List.length_replicate]
      rw [isCharBoundary, if_neg (by norm_num), List.drop_replicate]
      rw [show (15001 : Nat) - (15001 - 15000 / 2) = 7499 + 1 from by norm_num,
        List.replicate_succ]
      rfl
    rw [truncate_output, if_neg (by rw [List.length_replicate]; norm_num), if_pos]
    · rw [List.take_replicate, List.length_replicate, List.drop_replicate]
      rw [show min (15000 / 2) 15001 = 7500 from by norm_num,
        show (15001 : Nat) - (15001 - 15000 / 2) = 7500 from by norm_num]
    · exact ⟨by rw [show (15000 : Nat) / 2 = 7500 from by norm_num]; exact hb1, hb2⟩
  · rw [List.length_append, List.length_append, List.length_replicate, hsep]

end Cyberdriver
